import Mathlib

/-!
Shallow embedding of `src/scripts/sketcher.py` (MapSketcher) and proofs
about it.  Python floats are idealized as rationals; numpy arrays of
shape `(N,3)` become lists of triples; the Python list used as the undo
stack keeps its orientation (append and pop both act at the end of the
list, so the bottom of the stack is the head of the list).
-/

namespace Sketcher

/-- One 3D point, a row of the `(N,3)` numpy array `points`. -/
structure Point3 where
  x : ℚ
  y : ℚ
  z : ℚ
deriving DecidableEq

/-- One RGB color with float channels, a row of the `(N,3)` array `colors`. -/
structure Col3 where
  r : ℚ
  g : ℚ
  b : ℚ
deriving DecidableEq

/-- State of a `PointCloud3D` instance. -/
structure Store where
  points : List Point3
  colors : List Col3
  undo_stack : List (ℕ × ℕ)
  cloud_height : ℚ
  export_layer_height : ℚ
  export_layer_count : ℤ
deriving DecidableEq

/-- Model of `PointCloud3D.__init__`: empty buffers, empty undo stack, default
export settings. -/
def Store.init : Store :=
  { points := [], colors := [], undo_stack := [],
    cloud_height := 1/4, export_layer_height := 1/4, export_layer_count := 10 }

/-- Default `color` argument of `add_square`: `(0.2, 0.6, 0.9)`. -/
def default_color : Col3 := { r := 1/5, g := 3/5, b := 9/10 }

/-- Model of `np.linspace(a, b, n)`: `n` evenly spaced samples from `a` to `b`,
both endpoints included; numpy returns `[a]` when `n = 1` and `[]` when
`n = 0`. -/
def linspace (a b : ℚ) (n : ℕ) : List ℚ :=
  if n = 1 then [a]
  else (List.range n).map (fun (i : ℕ) => a + (i : ℚ) * ((b - a) / ((n : ℚ) - 1)))

/-- Grid built inside `PointCloud3D.add_square`: side count
`n = int(np.sqrt(max(1, int(pts))))` (bumped to 1 if below 1), axis values
`np.linspace(-size/2, size/2, n)` shifted by the center, combined by
`np.meshgrid(xs, ys)` and raveled row-major (`ys` outer, `xs` inner),
with `z = 0` for every point. -/
def square_grid (x y size : ℚ) (pts : ℤ) : List Point3 :=
  let ptsN := max 1 pts
  let n0 := Nat.sqrt ptsN.toNat
  let n := if n0 < 1 then 1 else n0
  let xs := (linspace (-size/2) (size/2) n).map (fun v => v + x)
  let ys := (linspace (-size/2) (size/2) n).map (fun v => v + y)
  ys.flatMap (fun yv => xs.map (fun xv => { x := xv, y := yv, z := 0 }))

/-- Model of `PointCloud3D.add_square`: append the grid and a matching run of
colors, push `(start, count)` on the undo stack, return `count`.  The
Python `start == 0` branch replaces the arrays outright instead of
stacking onto them. -/
def Store.add_square (s : Store) (x y : ℚ) (size : ℚ) (pts : ℤ) (color : Col3) :
    ℕ × Store :=
  let pts3 := square_grid x y size pts
  let cols := List.replicate pts3.length color
  let start := s.points.length
  let count := pts3.length
  let s1 := { s with undo_stack := s.undo_stack ++ [(start, count)] }
  if start = 0 then
    (count, { s1 with points := pts3, colors := cols })
  else
    (count, { s1 with points := s1.points ++ pts3, colors := s1.colors ++ cols })

/-- Model of `PointCloud3D.undo`: pop the last `(start, count)` pair; reset both
buffers to empty when `start == 0`, otherwise truncate both to `start`. -/
def Store.undo (s : Store) : Bool × Store :=
  match s.undo_stack.getLast? with
  | none => (false, s)
  | some (start, _) =>
    let s1 := { s with undo_stack := s.undo_stack.dropLast }
    if start = 0 then
      (true, { s1 with points := [], colors := [] })
    else
      (true, { s1 with points := s1.points.take start, colors := s1.colors.take start })

/-- Model of `PointCloud3D.clear`: `self.points.size == 0` holds exactly when the
point list is empty; otherwise push `(0, len(points))` and empty both
buffers. -/
def Store.clear (s : Store) : Bool × Store :=
  if s.points = [] then (false, s)
  else
    (true, { s with undo_stack := s.undo_stack ++ [(0, s.points.length)],
                    points := [], colors := [] })

/-- Model of `astype(np.uint8)` applied to a float value: truncation toward zero,
reduced mod `2^8`. -/
def uint8_cast (q : ℚ) : ℕ :=
  ((if q < 0 then ⌈q⌉ else ⌊q⌋) % 256).toNat

/-- Per-color 8-bit conversion `(self.colors * 255).astype(np.uint8)`. -/
def col_u8 (c : Col3) : ℕ × ℕ × ℕ :=
  (uint8_cast (c.r * 255), uint8_cast (c.g * 255), uint8_cast (c.b * 255))

/-- Model of `PointCloud3D.build_3d_layers`: `none` models the Python
`(None, None)` result on an empty buffer; otherwise the stacked layers
(`layers = max(1, int(export_layer_count))`, `step = abs(export_layer_height)`)
and the per-layer copies of the 8-bit colors. -/
def Store.build_3d_layers (s : Store) : Option (List Point3 × List (ℕ × ℕ × ℕ)) :=
  if s.points = [] then none
  else
    let layers := (max 1 s.export_layer_count).toNat
    let step := |s.export_layer_height|
    let base_cols := s.colors.map col_u8
    let pts_list := (List.range layers).map
      (fun (i : ℕ) => s.points.map (fun p => { p with z := p.z + (i : ℚ) * step }))
    let col_list := (List.range layers).map (fun _ => base_cols)
    some (pts_list.flatten, col_list.flatten)

/-- Model of `PointCloud3D.save_ply`.  The second component models the file
contents (header vertex count plus one record per point); `none` means
the function returned before opening the file, so no file was created. -/
def Store.save_ply (s : Store) : Bool × Option (ℕ × List (Point3 × (ℕ × ℕ × ℕ))) :=
  match s.build_3d_layers with
  | none => (false, none)
  | some (pts, cols) => (true, some (pts.length, pts.zip cols))

/-- Model of `PointCloud3D.save_pcd`.  The rgb channels are packed as
`(r<<16)|(g<<8)|b`, equal to `r*65536 + g*256 + b` since each channel is
below 256; `none` again means no file was created. -/
def Store.save_pcd (s : Store) : Bool × Option (ℕ × List (Point3 × ℕ)) :=
  match s.build_3d_layers with
  | none => (false, none)
  | some (pts, cols) =>
    (true, some (pts.length,
      pts.zip (cols.map (fun c => c.1 * 65536 + c.2.1 * 256 + c.2.2))))

instance : Inhabited Point3 := ⟨{ x := 0, y := 0, z := 0 }⟩

instance : Inhabited Col3 := ⟨{ r := 0, g := 0, b := 0 }⟩

/-- State of a `PointCloudApp` instance, restricted to the fields the
core logic reads or writes.  `pending` lists the delays of the redraw
callbacks currently scheduled with `root.after`, oldest first; `view` is
the point/color data last handed to the scatter artist by `update_view`. -/
structure App where
  pc : Store
  points_per_cloud : ℤ
  cloud_size : ℚ
  redraw_scheduled : Bool
  redraw_interval_ms : ℕ
  mouse_down : Bool
  last_pos : Option (ℚ × ℚ)
  pending : List ℕ
  view : List (ℚ × ℚ) × List Col3

/-- Model of `PointCloudApp.__init__` followed by the initial `update_view` on the
empty store. -/
def App.init : App :=
  { pc := Store.init, points_per_cloud := 200, cloud_size := 1,
    redraw_scheduled := false, redraw_interval_ms := 30,
    mouse_down := false, last_pos := none, pending := [], view := ([], []) }

/-- Display downsampling in `PointCloudApp.update_view`: above
`MAX_DISPLAY = 30000` points, `np.linspace(0, total-1, 30000).astype(int)`
picks evenly spaced display indices (`astype(int)` truncates toward zero;
every value here is nonnegative, so it is a floor). -/
def display_indices (total : ℕ) : List ℕ :=
  if total ≤ 30000 then List.range total
  else (linspace 0 ((total : ℚ) - 1) 30000).map (fun q => ⌊q⌋.toNat)

/-- Model of `PointCloudApp.update_view`: the data handed to the scatter artist —
first two coordinates and the colors at the display indices; an empty
buffer removes the scatter artist, leaving nothing displayed. -/
def update_view (s : Store) : List (ℚ × ℚ) × List Col3 :=
  if s.points.length = 0 then ([], [])
  else
    let idx := display_indices s.points.length
    (idx.map (fun i => ((s.points.getD i default).x, (s.points.getD i default).y)),
     idx.map (fun i => s.colors.getD i default))

/-- Model of `PointCloudApp.add_cloud_quick`: append a cloud with the app's size
and count settings and the default color, then schedule one debounced
redraw callback unless one is already pending. -/
def App.add_cloud_quick (a : App) (x y : ℚ) : App :=
  let a1 := { a with
    pc := (a.pc.add_square x y a.cloud_size a.points_per_cloud default_color).2 }
  if a1.redraw_scheduled then a1
  else { a1 with redraw_scheduled := true,
                 pending := a1.pending ++ [a1.redraw_interval_ms] }

/-- Firing of the debounce timer: the scheduler consumes the earliest
pending callback and runs `PointCloudApp._perform_scheduled_redraw`,
which clears the flag and redraws from the current store. -/
def App.perform_scheduled_redraw (a : App) : App :=
  { a with pending := a.pending.drop 1,
           redraw_scheduled := false,
           view := update_view a.pc }

/-- Model of `PointCloudApp.mouse_press`: a primary-button press with valid canvas
coordinates starts a drag, records the position and appends one cloud
there. -/
def App.mouse_press (a : App) (button : ℕ) (xy : Option (ℚ × ℚ)) : App :=
  match xy with
  | none => a
  | some (x, y) =>
    if button = 1 then
      App.add_cloud_quick { a with mouse_down := true, last_pos := some (x, y) } x y
    else a

/-- Model of `PointCloudApp.mouse_release`. -/
def App.mouse_release (a : App) : App :=
  { a with mouse_down := false, last_pos := none }

/-- Model of `PointCloudApp.mouse_move`: ignored unless dragging with valid
coordinates; with no recorded position the sample is only recorded; with
one, a cloud is appended only when the squared displacement from the
recorded position exceeds `0.0005 = 1/2000`. -/
def App.mouse_move (a : App) (xy : Option (ℚ × ℚ)) : App :=
  match xy with
  | none => a
  | some (x, y) =>
    if a.mouse_down = false then a
    else
      match a.last_pos with
      | none => { a with last_pos := some (x, y) }
      | some (lx, ly) =>
        if (x - lx) ^ 2 + (y - ly) ^ 2 > 1 / 2000 then
          App.add_cloud_quick { a with last_pos := some (x, y) } x y
        else a

/-- Argument bundle for one `add_square` call. -/
structure SqArgs where
  x : ℚ
  y : ℚ
  size : ℚ
  pts : ℤ
  color : Col3

/-- Apply one `add_square` call, keeping only the state. -/
def apply_add (s : Store) (a : SqArgs) : Store :=
  (s.add_square a.x a.y a.size a.pts a.color).2

/-- Apply a sequence of `add_square` calls from left to right. -/
def apply_appends (l : List SqArgs) (s : Store) : Store :=
  l.foldl apply_add s

/-- Iterate `undo`, keeping only the state. -/
def undoN : ℕ → Store → Store
  | 0, s => s
  | n + 1, s => undoN n s.undo.2

/-- Store states reachable from the initial store by `add_square` and
`undo` calls only. -/
inductive ReachAU : Store → Prop
  | init : ReachAU Store.init
  | add (s : Store) (a : SqArgs) : ReachAU s → ReachAU (apply_add s a)
  | undo (s : Store) : ReachAU s → ReachAU s.undo.2

/-- Store states reachable from the initial store by the mutating store
operations `add_square`, `undo` and `clear`.  The export operations
(`build_3d_layers`, `save_ply`, `save_pcd`) are functions of the state
and do not mutate it, so they do not change reachability. -/
inductive Reach : Store → Prop
  | init : Reach Store.init
  | add (s : Store) (a : SqArgs) : Reach s → Reach (apply_add s a)
  | undo (s : Store) : Reach s → Reach s.undo.2
  | clear (s : Store) : Reach s → Reach s.clear.2

theorem linspace_length (a b : ℚ) (n : ℕ) : (linspace a b n).length = n := by
  by_cases h : n = 1
  · simp [linspace, h]
  · rw [linspace, if_neg h, List.length_map, List.length_range]

theorem length_flatMap_const {α β : Type*} (l : List α) (f : α → List β) (m : ℕ)
    (hf : ∀ a ∈ l, (f a).length = m) : (l.flatMap f).length = l.length * m := by
  induction l with
  | nil => simp
  | cons a l ih =>
    have ha := hf a (List.mem_cons_self a l)
    have ih' := ih fun b hb => hf b (List.mem_cons_of_mem a hb)
    simp only [List.flatMap_cons, List.length_append, List.length_cons, ha, ih']
    ring

theorem one_le_grid_side (t : ℤ) : 1 ≤ Nat.sqrt (max 1 t).toNat := by
  refine Nat.le_sqrt.mpr ?_
  have := le_max_left (1 : ℤ) t
  omega

theorem square_grid_length (x y size : ℚ) (t : ℤ) :
    (square_grid x y size t).length = Nat.sqrt (max 1 t).toNat ^ 2 := by
  simp only [square_grid]
  have h1 := one_le_grid_side t
  rw [if_neg (by omega)]
  rw [length_flatMap_const _ _ (Nat.sqrt (max 1 t).toNat)
    (fun a _ => by simp [linspace_length])]
  simp [linspace_length, pow_two]

/-- Shape of one `add_square` call on a store whose two buffers have equal
length: both buffers grow by the grid, one batch is pushed, nothing else
changes, and the returned count is the grid size. -/
theorem add_square_state (s : Store) (x y size : ℚ) (t : ℤ) (c : Col3)
    (hlen : s.colors.length = s.points.length) :
    (s.add_square x y size t c).2 =
      { s with points := s.points ++ square_grid x y size t,
               colors := s.colors ++ List.replicate (square_grid x y size t).length c,
               undo_stack :=
                 s.undo_stack ++ [(s.points.length, (square_grid x y size t).length)] } ∧
    (s.add_square x y size t c).1 = (square_grid x y size t).length := by
  unfold Store.add_square
  by_cases h0 : s.points.length = 0
  · have hp : s.points = [] := List.length_eq_zero.mp h0
    have hc : s.colors = [] := List.length_eq_zero.mp (by omega)
    simp [h0, hp, hc]
  · simp [h0]

/-- The `undo` operation exactly inverts an `add_square` call (and returns `True`),
provided the two buffers had equal length beforehand. -/
theorem undo_apply_add (s : Store) (a : SqArgs)
    (hlen : s.colors.length = s.points.length) :
    (apply_add s a).undo = (true, s) := by
  have hstate := (add_square_state s a.x a.y a.size a.pts a.color hlen).1
  unfold apply_add
  rw [hstate]
  unfold Store.undo
  simp only [List.getLast?_concat, List.dropLast_concat]
  by_cases h0 : s.points.length = 0
  · have hp : s.points = [] := List.length_eq_zero.mp h0
    have hc : s.colors = [] := List.length_eq_zero.mp (by omega)
    obtain ⟨pts, cols, stk, ch, elh, elc⟩ := s
    simp_all
  · rw [if_neg h0]
    simp only [Prod.mk.injEq, true_and]
    have htp : (s.points ++ square_grid a.x a.y a.size a.pts).take s.points.length
        = s.points := List.take_left _ _
    have htc : (s.colors ++
        List.replicate (square_grid a.x a.y a.size a.pts).length a.color).take
        s.points.length = s.colors := List.take_left' hlen
    obtain ⟨pts, cols, stk, ch, elh, elc⟩ := s
    simp_all

theorem apply_add_len (s : Store) (a : SqArgs)
    (hlen : s.colors.length = s.points.length) :
    (apply_add s a).colors.length = (apply_add s a).points.length := by
  have hstate := (add_square_state s a.x a.y a.size a.pts a.color hlen).1
  unfold apply_add
  rw [hstate]
  simp [hlen]

theorem undo_len (s : Store) (hlen : s.colors.length = s.points.length) :
    s.undo.2.colors.length = s.undo.2.points.length := by
  unfold Store.undo
  cases hL : s.undo_stack.getLast? with
  | none => simpa using hlen
  | some b =>
    obtain ⟨st, ct⟩ := b
    by_cases h0 : st = 0
    · simp [h0]
    · simp [h0, hlen]

theorem clear_len (s : Store) (hlen : s.colors.length = s.points.length) :
    s.clear.2.colors.length = s.clear.2.points.length := by
  unfold Store.clear
  by_cases h : s.points = []
  · simpa [h] using hlen
  · simp [h]

theorem apply_appends_concat (l : List SqArgs) (a : SqArgs) (s : Store) :
    apply_appends (l ++ [a]) s = apply_add (apply_appends l s) a := by
  simp [apply_appends]

theorem apply_appends_len (l : List SqArgs) (s : Store)
    (h : s.colors.length = s.points.length) :
    (apply_appends l s).colors.length = (apply_appends l s).points.length := by
  induction l generalizing s with
  | nil => simpa [apply_appends] using h
  | cons a l ih =>
    simp only [apply_appends, List.foldl_cons]
    exact ih _ (apply_add_len s a h)

theorem undoN_apply_appends (j : ℕ) : ∀ l : List SqArgs, j ≤ l.length →
    undoN j (apply_appends l Store.init) =
      apply_appends (l.take (l.length - j)) Store.init := by
  induction j with
  | zero =>
    intro l _
    simp [undoN, List.take_length]
  | succ j ih =>
    intro l hj
    have hne : l ≠ [] := by rintro rfl; simp at hj
    have hsplit := List.dropLast_append_getLast hne
    have hstep : (apply_appends l Store.init).undo
        = (true, apply_appends l.dropLast Store.init) := by
      conv_lhs => rw [← hsplit]
      rw [apply_appends_concat]
      exact undo_apply_add _ _ (apply_appends_len _ _ rfl)
    have hred : undoN (j + 1) (apply_appends l Store.init)
        = undoN j (apply_appends l Store.init).undo.2 := rfl
    rw [hred, hstep]
    have hlj : j ≤ l.dropLast.length := by
      simp only [List.length_dropLast]; omega
    rw [ih l.dropLast hlj]
    rw [List.dropLast_eq_take, List.take_take]
    congr 2
    simp only [List.length_take]
    omega

theorem reach_len (s : Store) (h : Reach s) :
    s.colors.length = s.points.length := by
  induction h with
  | init => rfl
  | add s a _ ih => exact apply_add_len s a ih
  | undo s _ ih => exact undo_len s ih
  | clear s _ ih => exact clear_len s ih

theorem undo_points_length_le (s : Store) :
    s.undo.2.points.length ≤ s.points.length := by
  unfold Store.undo
  cases hL : s.undo_stack.getLast? with
  | none => simp
  | some b =>
    obtain ⟨st, ct⟩ := b
    by_cases h0 : st = 0
    · simp [h0]
    · simp only [h0, if_neg h0]
      simp

theorem undo_zero_start (s : Store) (ct : ℕ)
    (h : s.undo_stack.getLast? = some (0, ct)) :
    s.undo.2.points = [] ∧ s.undo.2.colors = [] := by
  unfold Store.undo
  rw [h]
  simp

theorem clear_points_nil (s : Store) : s.clear.2.points = [] := by
  unfold Store.clear
  by_cases h : s.points = []
  · simp [h]
  · simp [h]

theorem undo_keeps_nil (s : Store) (h : s.points = []) :
    s.undo.2.points = [] := by
  unfold Store.undo
  cases hL : s.undo_stack.getLast? with
  | none => simpa
  | some b =>
    obtain ⟨st, ct⟩ := b
    by_cases h0 : st = 0
    · simp [h0]
    · simp [h0, h]

theorem undoN_keeps_nil (n : ℕ) (s : Store) (h : s.points = []) :
    (undoN n s).points = [] := by
  induction n generalizing s with
  | zero => simpa [undoN]
  | succ n ih => exact ih s.undo.2 (undo_keeps_nil s h)

theorem clear_nonempty (s : Store) (h : s.points ≠ []) :
    s.clear = (true,
      { s with undo_stack := s.undo_stack ++ [(0, s.points.length)],
               points := [], colors := [] }) := by
  simp [Store.clear, h]

theorem undo_after_clear (s : Store) (h : s.points ≠ []) :
    s.clear.2.undo = (true, { s with points := [], colors := [] }) := by
  rw [clear_nonempty s h]
  unfold Store.undo
  simp [List.getLast?_concat, List.dropLast_concat]

theorem sqrt_one : Nat.sqrt 1 = 1 := by
  have h1 : 1 ≤ Nat.sqrt 1 := Nat.le_sqrt.mpr (by norm_num)
  have h2 : Nat.sqrt 1 < 2 := by
    rw [Nat.sqrt_lt]
    norm_num
  omega

theorem sqrt_200 : Nat.sqrt 200 = 14 := by
  have h1 : 14 ≤ Nat.sqrt 200 := Nat.le_sqrt.mpr (by norm_num)
  have h2 : Nat.sqrt 200 < 15 := by
    rw [Nat.sqrt_lt]
    norm_num
  omega

/-- With a target count of 1, the grid is the single point
`(x - size/2, y - size/2, 0)`: `np.linspace(lo, hi, 1)` yields `[lo]`. -/
theorem square_grid_pts_one (x y size : ℚ) :
    square_grid x y size 1 = [{ x := x - size / 2, y := y - size / 2, z := 0 }] := by
  simp only [square_grid]
  have hm : (max 1 (1 : ℤ)).toNat = 1 := rfl
  rw [hm, sqrt_one]
  norm_num [linspace]
  constructor <;> ring_nf

/-- With a target count of 200, the grid is the 14×14 grid with spacing
`size/13` starting at the corner `(x - size/2, y - size/2)`. -/
theorem square_grid_pts_200 (x y size : ℚ) :
    square_grid x y size 200 =
      (List.range 14).flatMap (fun (r : ℕ) =>
        (List.range 14).map (fun (c : ℕ) =>
          { x := x - size / 2 + (c : ℚ) * (size / 13),
            y := y - size / 2 + (r : ℚ) * (size / 13), z := 0 })) := by
  simp only [square_grid]
  have hm : (max 1 (200 : ℤ)).toNat = 200 := rfl
  rw [hm, sqrt_200]
  rw [if_neg (by omega)]
  rw [linspace, if_neg (by omega)]
  rw [List.map_map, List.flatMap_map]
  refine List.flatMap_congr ?_
  intro r _
  simp only [List.map_map]
  refine List.map_congr_left ?_
  intro c _
  simp only [Function.comp_apply, Point3.mk.injEq]
  norm_num
  constructor <;> ring_nf

/-- Canonical one-point example store: one `add_square` call with target
count 1 on the fresh store. -/
def store1 : Store := (Store.init.add_square 0 0 1 1 default_color).2

theorem store1_eval : store1 =
    { points := [{ x := -(1 / 2), y := -(1 / 2), z := 0 }],
      colors := [default_color], undo_stack := [(0, 1)],
      cloud_height := 1 / 4, export_layer_height := 1 / 4,
      export_layer_count := 10 } := by
  unfold store1
  rw [(add_square_state Store.init 0 0 1 1 default_color rfl).1]
  rw [square_grid_pts_one]
  norm_num [Store.init]

/-- Argument bundle of the canonical one-point `add_square` call. -/
def args1 : SqArgs := { x := 0, y := 0, size := 1, pts := 1, color := default_color }

theorem apply_add_args1 : apply_add Store.init args1 = store1 := rfl

/-- C1 (corrected): on every non-empty store, `clear()` returns `True` and
an immediate `undo()` returns `True` and pops the clear record (restoring
the undo stack), but it leaves both the points and colors buffers empty:
the pre-clear contents are not restored. -/
theorem c1_clear_then_undo_leaves_empty (s : Store) (h : s.points ≠ []) :
    s.clear.1 = true ∧ s.clear.2.undo.1 = true ∧
    s.clear.2.undo.2 = { s with points := [], colors := [] } := by
  refine ⟨by simp [Store.clear, h], ?_, ?_⟩
  · rw [undo_after_clear s h]
  · rw [undo_after_clear s h]

/-- C1 counterexample: for the concrete one-point store, `clear()` returns
`True` but the immediately following `undo()` leaves the points buffer
empty, which differs from the non-empty pre-clear buffer, so
clear-then-undo does not restore the pre-clear contents. -/
theorem c1_counterexample :
    store1.points ≠ [] ∧ store1.clear.1 = true ∧ store1.clear.2.undo.1 = true ∧
    store1.clear.2.undo.2.points = [] ∧
    store1.clear.2.undo.2.points ≠ store1.points := by
  have h : store1.points ≠ [] := by rw [store1_eval]; simp
  have hu := undo_after_clear store1 h
  refine ⟨h, by simp [Store.clear, h], by rw [hu], by rw [hu], ?_⟩
  rw [hu]
  exact fun he => h he.symm

/-- Witness for `c1_clear_then_undo_leaves_empty` at the one-point store. -/
theorem c1_witness :
    store1.points ≠ [] ∧
    (store1.clear.1 = true ∧ store1.clear.2.undo.1 = true ∧
      store1.clear.2.undo.2 = { store1 with points := [], colors := [] }) :=
  ⟨by rw [store1_eval]; simp,
   c1_clear_then_undo_leaves_empty store1 (by rw [store1_eval]; simp)⟩

/-- C4: starting from the empty store and a history of `add_square` calls
only, one further `add_square` followed by `undo` restores exactly the
previous state (and `undo` returns `True`); and `j` consecutive `undo`
calls, for any `j` up to the length of the history, give exactly the
state after the first `length - j` appends. -/
theorem c4_undo_restores_appends (l : List SqArgs) (a : SqArgs) (j : ℕ)
    (hj : j ≤ l.length) :
    (apply_add (apply_appends l Store.init) a).undo
      = (true, apply_appends l Store.init) ∧
    undoN j (apply_appends l Store.init)
      = apply_appends (l.take (l.length - j)) Store.init :=
  ⟨undo_apply_add _ a (apply_appends_len l _ rfl), undoN_apply_appends j l hj⟩

/-- Witness for `c4_undo_restores_appends` with a one-element history. -/
theorem c4_witness :
    1 ≤ ([args1] : List SqArgs).length ∧
    ((apply_add (apply_appends [args1] Store.init) args1).undo
        = (true, apply_appends [args1] Store.init) ∧
      undoN 1 (apply_appends [args1] Store.init)
        = apply_appends (([args1] : List SqArgs).take
            (([args1] : List SqArgs).length - 1)) Store.init) :=
  ⟨by simp, c4_undo_restores_appends [args1] args1 1 (by simp)⟩

/-- C6: `undo` never grows the points buffer; popping a batch whose
`start_index` is 0 resets both buffers to empty regardless of its count;
and after a `clear()` no number of `undo()` calls ever brings the cleared
points back. -/
theorem c6_undo_never_restores :
    (∀ s : Store, s.undo.2.points.length ≤ s.points.length) ∧
    (∀ s : Store, ∀ ct : ℕ, s.undo_stack.getLast? = some (0, ct) →
      s.undo.2.points = [] ∧ s.undo.2.colors = []) ∧
    (∀ s : Store, ∀ n : ℕ, (undoN n s.clear.2).points = []) :=
  ⟨undo_points_length_le, undo_zero_start,
   fun s n => undoN_keeps_nil n s.clear.2 (clear_points_nil s)⟩

/-- Witness for `c6_undo_never_restores`, checking each clause on the
one-point store. -/
theorem c6_witness :
    store1.clear.2.undo_stack.getLast? = some (0, 1) ∧
    (store1.clear.2.undo.2.points = [] ∧ store1.clear.2.undo.2.colors = []) ∧
    (undoN 3 store1.clear.2).points = [] ∧
    store1.undo.2.points.length ≤ store1.points.length := by
  have hg : store1.clear.2.undo_stack.getLast? = some (0, 1) := by
    rw [store1_eval]
    simp [Store.clear]
  exact ⟨hg, c6_undo_never_restores.2.1 _ 1 hg,
    c6_undo_never_restores.2.2 store1 3, c6_undo_never_restores.1 store1⟩

/-- C9: on an empty buffer `build_3d_layers` yields nothing, and both
save operations return `False` without writing any file. -/
theorem c9_empty_buffer_no_export (s : Store) (h : s.points = []) :
    s.build_3d_layers = none ∧ s.save_ply = (false, none) ∧
    s.save_pcd = (false, none) := by
  have hb : s.build_3d_layers = none := by simp [Store.build_3d_layers, h]
  exact ⟨hb, by simp [Store.save_ply, hb], by simp [Store.save_pcd, hb]⟩

/-- Witness for `c9_empty_buffer_no_export` at the fresh store. -/
theorem c9_witness :
    Store.init.points = [] ∧
    (Store.init.build_3d_layers = none ∧ Store.init.save_ply = (false, none) ∧
      Store.init.save_pcd = (false, none)) :=
  ⟨rfl, c9_empty_buffer_no_export Store.init rfl⟩

/-- C10: in every state reachable by the mutating store operations
(`add_square`, `undo`, `clear`; the export operations do not mutate the
state), the points and colors buffers have equal length. -/
theorem c10_buffers_aligned (s : Store) (h : Reach s) :
    s.colors.length = s.points.length :=
  reach_len s h

/-- Witness for `c10_buffers_aligned` on a concrete reachable state
(append, then clear). -/
theorem c10_witness :
    Reach store1.clear.2 ∧
    store1.clear.2.colors.length = store1.clear.2.points.length :=
  ⟨Reach.clear store1 (Reach.add Store.init args1 Reach.init),
   c10_buffers_aligned _ (Reach.clear store1 (Reach.add Store.init args1 Reach.init))⟩

theorem flatten_map_range_length {a : Type} (f : ℕ → List a) (M n : ℕ)
    (hf : ∀ k, (f k).length = M) :
    ((List.range n).map f).flatten.length = n * M := by
  rw [List.length_flatten, List.map_map]
  have hc : (List.length ∘ f) = fun _ => M := funext fun k => hf k
  rw [hc, List.map_const', List.length_range, List.sum_replicate, smul_eq_mul]

theorem flatten_map_range_slice {a : Type} (f : ℕ → List a) (M n i : ℕ)
    (hf : ∀ k, (f k).length = M) (hi : i < n) :
    ((((List.range n).map f).flatten.drop (i * M)).take M) = f i := by
  have hsplit : List.range n
      = List.range i ++ (List.range (n - i)).map (fun k => i + k) := by
    rw [← List.range_add]
    congr 1
    omega
  rw [hsplit, List.map_append, List.flatten_append]
  have hlen : ((List.range i).map f).flatten.length = i * M :=
    flatten_map_range_length f M i hf
  rw [List.drop_left' hlen, List.map_map]
  have hpos : n - i = (n - i - 1) + 1 := by omega
  rw [hpos, List.range_succ_eq_map]
  simp only [List.map_cons, List.flatten_cons, Function.comp_apply]
  rw [List.take_left' (hf (i + 0))]
  simp

/-- Slice holding the `i`-th block of `len` consecutive elements. -/
def layer_slice {a : Type} (xs : List a) (len i : ℕ) : List a :=
  (xs.drop (i * len)).take len

/-- C2 (corrected): with a non-empty buffer of `M` points, aligned color
buffer, layer count `L ≥ 1` and layer height `H ≥ 0`, `build_3d_layers`
returns exactly `M*L` points and `M*L` colors; layer 0 is the stored
buffer, and layer `i` equals layer 0 with every `z` raised by `i*H`; the
colors of all layers are identical and equal the stored per-channel
floats scaled by 255 and truncated toward zero (not rounded) to 8-bit
integers. -/
theorem c2_build_layers (s : Store) (hne : s.points ≠ [])
    (hL : 1 ≤ s.export_layer_count) (hH : 0 ≤ s.export_layer_height)
    (hlen : s.colors.length = s.points.length) :
    ∃ pts cols, s.build_3d_layers = some (pts, cols) ∧
      pts.length = s.points.length * s.export_layer_count.toNat ∧
      cols.length = s.points.length * s.export_layer_count.toNat ∧
      layer_slice pts s.points.length 0 = s.points ∧
      (∀ i < s.export_layer_count.toNat,
        layer_slice pts s.points.length i =
          (layer_slice pts s.points.length 0).map
            (fun p => { p with z := p.z + (i : ℚ) * s.export_layer_height })) ∧
      (∀ i < s.export_layer_count.toNat,
        layer_slice cols s.points.length i = layer_slice cols s.points.length 0) ∧
      layer_slice cols s.points.length 0 = s.colors.map col_u8 := by
  have hmax : max 1 s.export_layer_count = s.export_layer_count := max_eq_right hL
  have habs : |s.export_layer_height| = s.export_layer_height := abs_of_nonneg hH
  have h0 : 0 < s.export_layer_count.toNat := by omega
  have hb : s.build_3d_layers
      = some (((List.range s.export_layer_count.toNat).map
            (fun (i : ℕ) => s.points.map
              (fun p => { p with z := p.z + (i : ℚ) * s.export_layer_height }))).flatten,
          ((List.range s.export_layer_count.toNat).map
            (fun _ => s.colors.map col_u8)).flatten) := by
    simp only [Store.build_3d_layers, if_neg hne]
    rw [hmax, habs]
  have hFlen : ∀ (k : ℕ), (s.points.map
      (fun p => { p with z := p.z + (k : ℚ) * s.export_layer_height })).length
        = s.points.length := fun k => List.length_map _ _
  have hGlen : ∀ (k : ℕ), ((fun (_ : ℕ) => s.colors.map col_u8) k).length
      = s.points.length := fun k => by simpa using hlen
  have hF0 : s.points.map
      (fun p => { p with z := p.z + ((0 : ℕ) : ℚ) * s.export_layer_height })
        = s.points := by
    have hp : ∀ p : Point3,
        ({ p with z := p.z + ((0 : ℕ) : ℚ) * s.export_layer_height }) = p := by
      intro p
      cases p
      simp
    have h1 : s.points.map
        (fun p => { p with z := p.z + ((0 : ℕ) : ℚ) * s.export_layer_height })
          = s.points.map id := List.map_congr_left fun p _ => hp p
    rw [h1, List.map_id]
  refine ⟨_, _, hb, ?_, ?_, ?_, ?_, ?_, ?_⟩
  · rw [flatten_map_range_length _ _ _ hFlen, Nat.mul_comm]
  · rw [flatten_map_range_length (fun _ => s.colors.map col_u8) s.points.length
      s.export_layer_count.toNat hGlen, Nat.mul_comm]
  · unfold layer_slice
    rw [flatten_map_range_slice _ _ _ _ hFlen h0]
    exact hF0
  · intro i hi
    unfold layer_slice
    rw [flatten_map_range_slice _ _ _ _ hFlen hi,
      flatten_map_range_slice _ _ _ _ hFlen h0, hF0]
  · intro i hi
    unfold layer_slice
    rw [flatten_map_range_slice (fun _ => s.colors.map col_u8) s.points.length
        s.export_layer_count.toNat i hGlen hi,
      flatten_map_range_slice (fun _ => s.colors.map col_u8) s.points.length
        s.export_layer_count.toNat 0 hGlen h0]
  · unfold layer_slice
    rw [flatten_map_range_slice (fun _ => s.colors.map col_u8) s.points.length
      s.export_layer_count.toNat 0 hGlen h0]

/-- Concrete one-point store carrying the default color, with one export
layer configured. -/
def store2 : Store :=
  { points := [{ x := 0, y := 0, z := 0 }], colors := [default_color],
    undo_stack := [(0, 1)], cloud_height := 1 / 4,
    export_layer_height := 1 / 4, export_layer_count := 1 }

/-- Evaluation rule for `uint8_cast` on in-range values. -/
theorem uint8_cast_eval (q : ℚ) (m : ℕ) (hm : m < 256) (h1 : (m : ℚ) ≤ q)
    (h2 : q < (m : ℚ) + 1) : uint8_cast q = m := by
  have hq0 : (0 : ℚ) ≤ q := le_trans (by positivity) h1
  rw [uint8_cast, if_neg (not_lt.mpr hq0)]
  have hf : ⌊q⌋ = (m : ℤ) := by
    rw [Int.floor_eq_iff]
    exact ⟨by exact_mod_cast h1, by exact_mod_cast h2⟩
  rw [hf]
  have hmod : ((m : ℤ) % 256) = (m : ℤ) := by omega
  rw [hmod]
  exact Int.toNat_natCast m

theorem col_u8_default : col_u8 default_color = (51, 153, 229) := by
  unfold col_u8
  rw [uint8_cast_eval _ 51 (by norm_num) (by norm_num [default_color])
      (by norm_num [default_color]),
    uint8_cast_eval _ 153 (by norm_num) (by norm_num [default_color])
      (by norm_num [default_color]),
    uint8_cast_eval _ 229 (by norm_num) (by norm_num [default_color])
      (by norm_num [default_color])]

theorem store2_build : store2.build_3d_layers
    = some ([{ x := 0, y := 0, z := 0 }], [(51, 153, 229)]) := by
  simp [Store.build_3d_layers, store2, col_u8_default, List.range_succ]

/-- C2 counterexample: for the concrete one-point store with the default
color `(0.2, 0.6, 0.9)`, the exported blue channel is
`int(0.9 * 255) = 229` (truncation), while rounding `0.9 * 255 = 229.5`
gives 230, so the exported colors are not the rounded scaled channels. -/
theorem c2_counterexample :
    store2.build_3d_layers.map (fun pr => pr.2.getD 0 (0, 0, 0))
      = some (51, 153, 229) ∧
    round (default_color.b * 255) = (230 : ℤ) ∧ (229 : ℤ) ≠ 230 := by
  refine ⟨by rw [store2_build]; rfl, ?_, by norm_num⟩
  norm_num [default_color, round_eq, Int.floor_eq_iff]

/-- Witness for `c2_build_layers` at the concrete one-point store. -/
theorem c2_witness :
    (store2.points ≠ [] ∧ 1 ≤ store2.export_layer_count ∧
      0 ≤ store2.export_layer_height ∧
      store2.colors.length = store2.points.length) ∧
    (∃ pts cols, store2.build_3d_layers = some (pts, cols) ∧
      pts.length = store2.points.length * store2.export_layer_count.toNat ∧
      cols.length = store2.points.length * store2.export_layer_count.toNat ∧
      layer_slice pts store2.points.length 0 = store2.points ∧
      (∀ i < store2.export_layer_count.toNat,
        layer_slice pts store2.points.length i =
          (layer_slice pts store2.points.length 0).map
            (fun p => { p with z := p.z + (i : ℚ) * store2.export_layer_height })) ∧
      (∀ i < store2.export_layer_count.toNat,
        layer_slice cols store2.points.length i
          = layer_slice cols store2.points.length 0) ∧
      layer_slice cols store2.points.length 0 = store2.colors.map col_u8) :=
  ⟨⟨by simp [store2], by norm_num [store2], by norm_num [store2], rfl⟩,
   c2_build_layers store2 (by simp [store2]) (by norm_num [store2])
     (by norm_num [store2]) rfl⟩

theorem add_square_points (s : Store) (x y size : ℚ) (t : ℤ) (c : Col3) :
    (s.add_square x y size t c).2.points = s.points ++ square_grid x y size t := by
  unfold Store.add_square
  by_cases h0 : s.points.length = 0
  · have hp := List.length_eq_zero.mp h0
    simp [h0, hp]
  · simp [h0]

theorem add_square_count (s : Store) (x y size : ℚ) (t : ℤ) (c : Col3) :
    (s.add_square x y size t c).1 = (square_grid x y size t).length := by
  unfold Store.add_square
  by_cases h0 : s.points.length = 0
  · simp [h0]
  · simp [h0]

/-- C3 (corrected): `add_square` appends exactly the generated grid; with
target count 1 it appends exactly one point, located at the grid corner
`(x - size/2, y - size/2, 0)` rather than the claimed center `(x, y, 0)`
(because `np.linspace(lo, hi, 1)` yields `[lo]`); with target count 200
it appends exactly `14^2 = 196` points forming the regular 14×14 grid
with spacing `size/13` spanning `[x-size/2, x+size/2]×[y-size/2, y+size/2]`
at `z = 0`; and in general the appended count is the largest perfect
square at most `max(1, target)`. -/
theorem c3_add_square_grid (s : Store) (x y size : ℚ) (c : Col3) (t : ℤ) :
    (s.add_square x y size t c).2.points = s.points ++ square_grid x y size t ∧
    (s.add_square x y size t c).1 = (square_grid x y size t).length ∧
    square_grid x y size 1 = [{ x := x - size / 2, y := y - size / 2, z := 0 }] ∧
    square_grid x y size 200 =
      (List.range 14).flatMap (fun (r : ℕ) =>
        (List.range 14).map (fun (cc : ℕ) =>
          { x := x - size / 2 + (cc : ℚ) * (size / 13),
            y := y - size / 2 + (r : ℚ) * (size / 13), z := 0 })) ∧
    (square_grid x y size t).length = Nat.sqrt (max 1 t).toNat ^ 2 ∧
    Nat.sqrt (max 1 t).toNat ^ 2 ≤ (max 1 t).toNat ∧
    (∀ m : ℕ, m ^ 2 ≤ (max 1 t).toNat → m ^ 2 ≤ Nat.sqrt (max 1 t).toNat ^ 2) :=
  ⟨add_square_points s x y size t c, add_square_count s x y size t c,
   square_grid_pts_one x y size, square_grid_pts_200 x y size,
   square_grid_length x y size t, Nat.sqrt_le' (max 1 t).toNat,
   fun _ hm => Nat.pow_le_pow_left (Nat.le_sqrt'.mpr hm) 2⟩

/-- C3 counterexample: with center `(0,0)`, size 1 and target count 1,
the single appended point is `(-1/2, -1/2, 0)`, not the claimed center
`(0, 0, 0)`. -/
theorem c3_counterexample :
    store1.points = [{ x := -(1 / 2), y := -(1 / 2), z := 0 }] ∧
    ({ x := -(1 / 2), y := -(1 / 2), z := 0 } : Point3)
      ≠ { x := 0, y := 0, z := 0 } := by
  refine ⟨by rw [store1_eval], ?_⟩
  intro h
  have hx := congrArg Point3.x h
  norm_num at hx

/-- Witness for `c3_add_square_grid` at concrete inputs, instantiating
the largest-square clause at `m = 14`, `t = 200`. -/
theorem c3_witness :
    14 ^ 2 ≤ (max 1 (200 : ℤ)).toNat ∧
    ((Store.init.add_square 0 0 1 200 default_color).2.points
      = Store.init.points ++ square_grid 0 0 1 200) ∧
    (square_grid 0 0 1 200).length = Nat.sqrt (max 1 (200 : ℤ)).toNat ^ 2 ∧
    14 ^ 2 ≤ Nat.sqrt (max 1 (200 : ℤ)).toNat ^ 2 := by
  have h := c3_add_square_grid Store.init 0 0 1 default_color 200
  have hmax : (max 1 (200 : ℤ)).toNat = 200 := rfl
  exact ⟨by rw [hmax]; norm_num, h.1, h.2.2.2.2.1,
    h.2.2.2.2.2.2 14 (by rw [hmax]; norm_num)⟩

/-- Well-formed batch chain: the batches tile the buffer contiguously
from index `base` up to the current length `len`. -/
def ChainFrom (base : ℕ) : List (ℕ × ℕ) → ℕ → Prop
  | [], len => len = base
  | (st, ct) :: rest, len => st = base ∧ ChainFrom (st + ct) rest len

theorem chainFrom_concat (base len ct : ℕ) (l : List (ℕ × ℕ))
    (h : ChainFrom base l len) : ChainFrom base (l ++ [(len, ct)]) (len + ct) := by
  induction l generalizing base with
  | nil => exact ⟨h, rfl⟩
  | cons b rest ih =>
    obtain ⟨st, ct2⟩ := b
    obtain ⟨hb, hrest⟩ := h
    exact ⟨hb, ih _ hrest⟩

theorem chainFrom_concat_inv (base len st ct : ℕ) (l : List (ℕ × ℕ))
    (h : ChainFrom base (l ++ [(st, ct)]) len) :
    ChainFrom base l st ∧ len = st + ct := by
  induction l generalizing base with
  | nil => exact ⟨h.1, h.2⟩
  | cons b rest ih =>
    obtain ⟨st2, ct2⟩ := b
    obtain ⟨hb, hrest⟩ := h
    have := ih _ hrest
    exact ⟨⟨hb, this.1⟩, this.2⟩

theorem chainFrom_le (base : ℕ) (l : List (ℕ × ℕ)) (len : ℕ)
    (h : ChainFrom base l len) :
    base ≤ len ∧ ∀ p ∈ l, base ≤ p.1 ∧ p.1 + p.2 ≤ len := by
  induction l generalizing base with
  | nil => exact ⟨le_of_eq h.symm, by simp⟩
  | cons b rest ih =>
    obtain ⟨st, ct⟩ := b
    obtain ⟨hb, hrest⟩ := h
    obtain ⟨hle, hall⟩ := ih _ hrest
    refine ⟨by omega, ?_⟩
    intro p hp
    rcases List.mem_cons.mp hp with hp | hp
    · subst hp
      exact ⟨by omega, by omega⟩
    · have := hall p hp
      exact ⟨by omega, this.2⟩

theorem chainFrom_chain (base : ℕ) (l : List (ℕ × ℕ)) (len : ℕ)
    (h : ChainFrom base l len) : List.Chain' (· ≤ ·) (l.map Prod.fst) := by
  induction l generalizing base with
  | nil => simp
  | cons b rest ih =>
    obtain ⟨st, ct⟩ := b
    obtain ⟨hb, hrest⟩ := h
    cases rest with
    | nil => simp
    | cons b2 rest2 =>
      obtain ⟨st2, ct2⟩ := b2
      obtain ⟨hb2, hrest2⟩ := hrest
      rw [List.map_cons, List.map_cons, List.chain'_cons]
      exact ⟨by omega, ih (st + ct) ⟨hb2, hrest2⟩⟩

theorem undo_concat (s : Store) (l : List (ℕ × ℕ)) (st ct : ℕ)
    (h : s.undo_stack = l ++ [(st, ct)]) :
    s.undo = (true,
      if st = 0 then { s with undo_stack := l, points := [], colors := [] }
      else { s with undo_stack := l, points := s.points.take st,
                    colors := s.colors.take st }) := by
  unfold Store.undo
  rw [h, List.getLast?_concat, List.dropLast_concat]
  by_cases h0 : st = 0
  · simp [h0]
  · simp [h0]

/-- Invariant of append/undo-only runs: the undo stack is a contiguous
chain of batches starting at 0 and ending at the buffer length, and the
buffers stay aligned. -/
theorem reachAU_chain (s : Store) (h : ReachAU s) :
    ChainFrom 0 s.undo_stack s.points.length ∧
    s.colors.length = s.points.length := by
  induction h with
  | init => exact ⟨rfl, rfl⟩
  | add s a hr ih =>
    obtain ⟨hc, hlen⟩ := ih
    have hstate := (add_square_state s a.x a.y a.size a.pts a.color hlen).1
    unfold apply_add
    rw [hstate]
    constructor
    · have := chainFrom_concat 0 s.points.length
        (square_grid a.x a.y a.size a.pts).length s.undo_stack hc
      simpa using this
    · simp [hlen]
  | undo s hr ih =>
    obtain ⟨hc, hlen⟩ := ih
    rcases List.eq_nil_or_concat s.undo_stack with hnil | ⟨l, b, hsplit⟩
    · have hu : s.undo = (false, s) := by
        unfold Store.undo
        rw [hnil]
        simp
      rw [hu]
      exact ⟨hc, hlen⟩
    · obtain ⟨st, ct⟩ := b
      rw [List.concat_eq_append] at hsplit
      rw [hsplit] at hc
      have hinv := chainFrom_concat_inv 0 s.points.length st ct l hc
      rw [undo_concat s l st ct hsplit]
      by_cases h0 : st = 0
      · rw [if_pos h0]
        subst h0
        exact ⟨hinv.1, rfl⟩
      · rw [if_neg h0]
        have hst : st ≤ s.points.length := by
          have := hinv.2
          omega
        constructor
        · show ChainFrom 0 l (s.points.take st).length
          have hl : (s.points.take st).length = st := by
            rw [List.length_take]
            omega
          rw [hl]
          exact hinv.1
        · show (s.colors.take st).length = (s.points.take st).length
          rw [List.length_take, List.length_take, hlen]

/-- C5 (corrected): restricted to store states reachable by `add_square`
and `undo` only (no `clear`), every element of the undo stack satisfies
`start_index + count ≤ len(points)`, and the `start_index` values are
non-decreasing from bottom to top.  `clear` breaks both properties. -/
theorem c5_stack_invariant_without_clear (s : Store) (h : ReachAU s) :
    List.Chain' (· ≤ ·) (s.undo_stack.map Prod.fst) ∧
    ∀ b ∈ s.undo_stack, b.1 + b.2 ≤ s.points.length :=
  ⟨chainFrom_chain 0 _ _ (reachAU_chain s h).1,
   fun b hb => ((chainFrom_le 0 _ _ (reachAU_chain s h).1).2 b hb).2⟩

/-- Concrete reachable state: two one-point appends followed by `clear`. -/
def store3 : Store := (apply_add (apply_add Store.init args1) args1).clear.2

theorem store3_eval : store3 =
    { points := [], colors := [], undo_stack := [(0, 1), (1, 1), (0, 2)],
      cloud_height := 1 / 4, export_layer_height := 1 / 4,
      export_layer_count := 10 } := by
  have hs1len : store1.colors.length = store1.points.length := by
    simp [store1_eval]
  have h2 : apply_add store1 args1
      = { store1 with
          points := store1.points ++ square_grid 0 0 1 1,
          colors := store1.colors
            ++ List.replicate (square_grid 0 0 1 1).length default_color,
          undo_stack := store1.undo_stack
            ++ [(store1.points.length, (square_grid 0 0 1 1).length)] } :=
    (add_square_state store1 0 0 1 1 default_color hs1len).1
  unfold store3
  rw [apply_add_args1, h2, store1_eval, square_grid_pts_one]
  simp [Store.clear]

/-- C5 counterexample: the reachable state after two appends and a
`clear` has undo-stack start indices `[0, 1, 0]`, which are not
non-decreasing, and its top batch `(0, 2)` has
`start + count = 2 > 0 = len(points)`. -/
theorem c5_counterexample :
    Reach store3 ∧
    store3.undo_stack.map Prod.fst = [0, 1, 0] ∧
    ¬ List.Chain' (· ≤ ·) (store3.undo_stack.map Prod.fst) ∧
    ¬ (∀ b ∈ store3.undo_stack, b.1 + b.2 ≤ store3.points.length) := by
  have hreach : Reach store3 :=
    Reach.clear _ (Reach.add _ args1 (Reach.add _ args1 Reach.init))
  have hstack : store3.undo_stack = [(0, 1), (1, 1), (0, 2)] := by
    rw [store3_eval]
  have hpts : store3.points = [] := by
    rw [store3_eval]
  refine ⟨hreach, by rw [hstack]; rfl, ?_, ?_⟩
  · intro hch
    rw [hstack] at hch
    simp [List.chain'_cons] at hch
  · intro hall
    have h02 := hall (0, 2) (by rw [hstack]; simp)
    rw [hpts] at h02
    simp at h02

/-- Witness for `c5_stack_invariant_without_clear` at a reachable
two-append state. -/
theorem c5_witness :
    ReachAU (apply_add store1 args1) ∧
    (List.Chain' (· ≤ ·) ((apply_add store1 args1).undo_stack.map Prod.fst) ∧
      ∀ b ∈ (apply_add store1 args1).undo_stack,
        b.1 + b.2 ≤ (apply_add store1 args1).points.length) :=
  ⟨ReachAU.add _ args1 (ReachAU.add _ args1 ReachAU.init),
   c5_stack_invariant_without_clear _
     (ReachAU.add _ args1 (ReachAU.add _ args1 ReachAU.init))⟩

theorem add_cloud_quick_scheduled (a : App) (x y : ℚ)
    (h : a.redraw_scheduled = true) :
    a.add_cloud_quick x y = { a with
      pc := (a.pc.add_square x y a.cloud_size a.points_per_cloud default_color).2 } := by
  unfold App.add_cloud_quick
  simp [h]

theorem add_cloud_quick_unscheduled (a : App) (x y : ℚ)
    (h : a.redraw_scheduled = false) :
    a.add_cloud_quick x y = { a with
      pc := (a.pc.add_square x y a.cloud_size a.points_per_cloud default_color).2,
      redraw_scheduled := true,
      pending := a.pending ++ [a.redraw_interval_ms] } := by
  unfold App.add_cloud_quick
  simp [h]

/-- Burst of pointer positions fed one by one to `add_cloud_quick`. -/
def addSeq (ps : List (ℚ × ℚ)) (a : App) : App :=
  ps.foldl (fun b p => b.add_cloud_quick p.1 p.2) a

/-- Store-level effect of a burst of appends with fixed settings. -/
def addClouds (ps : List (ℚ × ℚ)) (sz : ℚ) (cnt : ℤ) (s : Store) : Store :=
  ps.foldl (fun t p => (t.add_square p.1 p.2 sz cnt default_color).2) s

theorem addSeq_scheduled (ps : List (ℚ × ℚ)) (a : App)
    (h : a.redraw_scheduled = true) :
    addSeq ps a
      = { a with pc := addClouds ps a.cloud_size a.points_per_cloud a.pc } := by
  induction ps generalizing a with
  | nil => rfl
  | cons p ps ih =>
    show addSeq ps (a.add_cloud_quick p.1 p.2) = _
    rw [add_cloud_quick_scheduled a p.1 p.2 h]
    exact (ih { a with
      pc := (a.pc.add_square p.1 p.2 a.cloud_size a.points_per_cloud
        default_color).2 } h).trans (by rfl)

/-- C7: starting from a quiescent app (flag clear, nothing scheduled)
with the fixed 30-unit debounce interval, a non-empty burst of
`add_cloud_quick` calls sets the flag, leaves exactly one scheduled
callback of delay 30, and appends every cloud of the burst to the store;
when the callback fires it consumes the single callback, clears the flag
and performs one redraw from the store holding all the appends; and one
further append after the callback has fired schedules exactly one new
callback. -/
theorem c7_debounce (a : App) (ps : List (ℚ × ℚ))
    (hflag : a.redraw_scheduled = false) (hpend : a.pending = [])
    (hint : a.redraw_interval_ms = 30) (hne : ps ≠ []) :
    (addSeq ps a).redraw_scheduled = true ∧
    (addSeq ps a).pending = [30] ∧
    (addSeq ps a).pc = addClouds ps a.cloud_size a.points_per_cloud a.pc ∧
    ((addSeq ps a).perform_scheduled_redraw).redraw_scheduled = false ∧
    ((addSeq ps a).perform_scheduled_redraw).pending = [] ∧
    ((addSeq ps a).perform_scheduled_redraw).view
      = update_view (addClouds ps a.cloud_size a.points_per_cloud a.pc) ∧
    (∀ x y : ℚ,
      (((addSeq ps a).perform_scheduled_redraw).add_cloud_quick x y).pending
        = [30] ∧
      (((addSeq ps a).perform_scheduled_redraw).add_cloud_quick x y).redraw_scheduled
        = true) := by
  cases ps with
  | nil => exact absurd rfl hne
  | cons p ps =>
    have h1 : a.add_cloud_quick p.1 p.2 = { a with
        pc := (a.pc.add_square p.1 p.2 a.cloud_size a.points_per_cloud
          default_color).2,
        redraw_scheduled := true, pending := [30] } := by
      rw [add_cloud_quick_unscheduled a p.1 p.2 hflag, hpend, hint]
      rfl
    have h2 : addSeq (p :: ps) a = { a with
        pc := addClouds (p :: ps) a.cloud_size a.points_per_cloud a.pc,
        redraw_scheduled := true, pending := [30] } := by
      show addSeq ps (a.add_cloud_quick p.1 p.2) = _
      rw [h1, addSeq_scheduled _ _ rfl]
      rfl
    have h3 : (addSeq (p :: ps) a).perform_scheduled_redraw = { a with
        pc := addClouds (p :: ps) a.cloud_size a.points_per_cloud a.pc,
        redraw_scheduled := false, pending := [],
        view := update_view
          (addClouds (p :: ps) a.cloud_size a.points_per_cloud a.pc) } := by
      rw [h2]
      rfl
    refine ⟨by rw [h2], by rw [h2], by rw [h2], by rw [h3], by rw [h3],
      by rw [h3], ?_⟩
    intro x y
    rw [h3, add_cloud_quick_unscheduled _ x y rfl]
    constructor
    · show ([] : List ℕ) ++ [a.redraw_interval_ms] = [30]
      rw [hint]
      rfl
    · rfl

theorem add_cloud_quick_pc (b : App) (x y : ℚ) :
    (b.add_cloud_quick x y).pc
      = (b.pc.add_square x y b.cloud_size b.points_per_cloud default_color).2 ∧
    (b.add_cloud_quick x y).last_pos = b.last_pos := by
  unfold App.add_cloud_quick
  by_cases h : b.redraw_scheduled
  · simp [h]
  · simp [h]

/-- C8: while dragging with recorded position `(lx, ly)`, a move to
`(x, y)` with squared displacement at most `0.0005 = 1/2000` appends
nothing and changes nothing (in particular the recorded position stays);
a move with squared displacement above the threshold records `(x, y)`
and appends exactly one cloud there: one grid of points, one matching
run of colors, one undo record. -/
theorem c8_drag_sampling (a : App) (x y lx ly : ℚ)
    (hd : a.mouse_down = true) (hl : a.last_pos = some (lx, ly))
    (hlen : a.pc.colors.length = a.pc.points.length) :
    ((x - lx) ^ 2 + (y - ly) ^ 2 ≤ 1 / 2000 →
      a.mouse_move (some (x, y)) = a) ∧
    (1 / 2000 < (x - lx) ^ 2 + (y - ly) ^ 2 →
      (a.mouse_move (some (x, y))).last_pos = some (x, y) ∧
      (a.mouse_move (some (x, y))).pc.points
        = a.pc.points ++ square_grid x y a.cloud_size a.points_per_cloud ∧
      (a.mouse_move (some (x, y))).pc.colors
        = a.pc.colors ++ List.replicate
            (square_grid x y a.cloud_size a.points_per_cloud).length
            default_color ∧
      (a.mouse_move (some (x, y))).pc.undo_stack
        = a.pc.undo_stack ++ [(a.pc.points.length,
            (square_grid x y a.cloud_size a.points_per_cloud).length)]) := by
  have hmove : a.mouse_move (some (x, y))
      = if (x - lx) ^ 2 + (y - ly) ^ 2 > 1 / 2000 then
          App.add_cloud_quick { a with last_pos := some (x, y) } x y
        else a := by
    unfold App.mouse_move
    rw [hd, hl]
    rfl
  constructor
  · intro hle
    rw [hmove, if_neg (not_lt.mpr hle)]
  · intro hgt
    rw [hmove, if_pos hgt]
    have hpc := add_cloud_quick_pc { a with last_pos := some (x, y) } x y
    have hstate := (add_square_state a.pc x y a.cloud_size a.points_per_cloud
      default_color hlen).1
    refine ⟨hpc.2, ?_, ?_, ?_⟩ <;>
      rw [show (App.add_cloud_quick { a with last_pos := some (x, y) } x y).pc
          = (a.pc.add_square x y a.cloud_size a.points_per_cloud
              default_color).2 from hpc.1, hstate]

/-- Concrete quiescent dragging app over the fresh store. -/
def app1 : App :=
  { pc := Store.init, points_per_cloud := 1, cloud_size := 1,
    redraw_scheduled := false, redraw_interval_ms := 30, mouse_down := true,
    last_pos := some (0, 0), pending := [], view := ([], []) }

/-- Witness for `c7_debounce` with a single-position burst. -/
theorem c7_witness :
    app1.redraw_scheduled = false ∧ app1.pending = [] ∧
    app1.redraw_interval_ms = 30 ∧ ([((0 : ℚ), (0 : ℚ))] ≠ []) ∧
    ((addSeq [((0 : ℚ), (0 : ℚ))] app1).redraw_scheduled = true ∧
      (addSeq [((0 : ℚ), (0 : ℚ))] app1).pending = [30] ∧
      (addSeq [((0 : ℚ), (0 : ℚ))] app1).pc
        = addClouds [((0 : ℚ), (0 : ℚ))] app1.cloud_size app1.points_per_cloud
            app1.pc ∧
      ((addSeq [((0 : ℚ), (0 : ℚ))] app1).perform_scheduled_redraw).redraw_scheduled
        = false ∧
      ((addSeq [((0 : ℚ), (0 : ℚ))] app1).perform_scheduled_redraw).pending = [] ∧
      ((addSeq [((0 : ℚ), (0 : ℚ))] app1).perform_scheduled_redraw).view
        = update_view (addClouds [((0 : ℚ), (0 : ℚ))] app1.cloud_size
            app1.points_per_cloud app1.pc) ∧
      (∀ x y : ℚ,
        (((addSeq [((0 : ℚ), (0 : ℚ))] app1).perform_scheduled_redraw).add_cloud_quick
            x y).pending = [30] ∧
        (((addSeq [((0 : ℚ), (0 : ℚ))] app1).perform_scheduled_redraw).add_cloud_quick
            x y).redraw_scheduled = true)) :=
  ⟨rfl, rfl, rfl, by simp,
   c7_debounce app1 [((0 : ℚ), (0 : ℚ))] rfl rfl rfl (by simp)⟩

/-- Witness for `c8_drag_sampling`: a large move appends and records the
new position; a zero move is ignored. -/
theorem c8_witness :
    app1.mouse_down = true ∧ app1.last_pos = some (0, 0) ∧
    app1.pc.colors.length = app1.pc.points.length ∧
    (1 / 2000 < ((1 : ℚ) - 0) ^ 2 + ((0 : ℚ) - 0) ^ 2) ∧
    (app1.mouse_move (some (1, 0))).last_pos = some (1, 0) ∧
    (((0 : ℚ) - 0) ^ 2 + ((0 : ℚ) - 0) ^ 2 ≤ 1 / 2000) ∧
    app1.mouse_move (some (0, 0)) = app1 := by
  have h := c8_drag_sampling app1 1 0 0 0 rfl rfl rfl
  have h0 := c8_drag_sampling app1 0 0 0 0 rfl rfl rfl
  exact ⟨rfl, rfl, rfl, by norm_num, (h.2 (by norm_num)).1, by norm_num,
    h0.1 (by norm_num)⟩

end Sketcher
